import Mathlib

/-!
Verification of `src/gmm_training/train_gmm.py`: a pipeline extracting deep
features from images and fitting a diagonal-covariance Gaussian mixture model
(GMM), exporting the parameters as JSON.

The embedding models:
  * `extractFeatures` — the per-sample loop of `extract_features` (lines 74–103
    of the source), with the embedding backbone abstracted as a fallible
    function `String → Except String (List ℚ)` (the backbone is an external
    collaborator; an `Except.error` models a raised exception for that sample).
  * the GMM estimator (`train_gmm`, which delegates to
    `sklearn.mixture.GaussianMixture.fit` — library code not present in the
    repository), modelled from the spec's design-level EM description.
  * `export_gmm` (lines 119–133), modelled both as a JSON document builder and
    as a sequence of file-system steps, to settle the atomicity claim.
  * `main` (lines 136–172): stage sequencing, exit codes and diagnostics.

Real numbers of the source (float32/float64) are modelled as exact rationals.
-/

namespace TrainGmm

/-- Log entries printed by `extract_features`:
`[INFO] Beginning feature extraction for {total} images...`,
`[INFO] Processing image {idx} of {total}: {img_path}`,
`[WARN] Failed to process {img_path}: {e}` and
`[INFO] Feature extraction complete. Shape: ...`. -/
inductive LogEntry where
  | beginInfo (total : Nat)
  | processing (idx total : Nat) (path : String)
  | warn (path : String) (cause : String)
  | complete (rows : Nat)
deriving DecidableEq, Repr

/-- The two fatal errors `extract_features` can raise.  In the source both are
`RuntimeError`s distinguished by their message strings (lines 81 and 99). -/
inductive ExtractError where
  | noSamplesFound
  | noFeaturesExtracted
deriving DecidableEq, Repr

/-- The message string attached to each `RuntimeError` in the source. -/
def ExtractError.message : ExtractError → String
  | .noSamplesFound => "No images found. Supported extensions: .jpg, .jpeg, .png"
  | .noFeaturesExtracted => "No features extracted. All image loads may have failed."

/-- The per-sample loop of `extract_features`: for each path (enumerated from
`start=1`), attempt to open, preprocess and embed the image; a success appends
the feature vector, a failure logs a warning with the path and the cause and
continues with the next sample. -/
def processSamples (embed : String → Except String (List ℚ)) (total : Nat) :
    Nat → List String → List (List ℚ) × List LogEntry
  | _, [] => ([], [])
  | idx, p :: ps =>
    let rest := processSamples embed total (idx + 1) ps
    match embed p with
    | .ok v => (v :: rest.1, LogEntry.processing idx total p :: rest.2)
    | .error e =>
        (rest.1, LogEntry.processing idx total p :: LogEntry.warn p e :: rest.2)

/-- `extract_features` (source lines 74–103): raises `NoSamplesFound` when the
path list is empty, runs the per-sample loop, raises `NoFeaturesExtracted` when
no sample survived, and otherwise stacks the surviving feature vectors in
processing order. -/
def extractFeatures (embed : String → Except String (List ℚ))
    (imagePaths : List String) :
    Except ExtractError (List (List ℚ)) × List LogEntry :=
  let total := imagePaths.length
  if total = 0 then (Except.error ExtractError.noSamplesFound, [])
  else
    let res := processSamples embed total 1 imagePaths
    if res.1 = [] then
      (Except.error ExtractError.noFeaturesExtracted, LogEntry.beginInfo total :: res.2)
    else
      (Except.ok res.1,
        LogEntry.beginInfo total :: res.2 ++ [LogEntry.complete res.1.length])

theorem processSamples_fst (embed : String → Except String (List ℚ))
    (total : Nat) : ∀ (idx : Nat) (ps : List String),
    (processSamples embed total idx ps).1
      = ps.filterMap (fun p => (embed p).toOption) := by
  intro idx ps
  induction ps generalizing idx with
  | nil => rfl
  | cons p ps ih =>
    simp only [processSamples, List.filterMap_cons]
    cases h : embed p with
    | ok v => simp [h, Except.toOption, ih]
    | error e => simp [h, Except.toOption, ih]

theorem processSamples_warn (embed : String → Except String (List ℚ))
    (total : Nat) : ∀ (idx : Nat) (ps : List String) (p : String) (e : String),
    p ∈ ps → embed p = Except.error e →
    LogEntry.warn p e ∈ (processSamples embed total idx ps).2 := by
  intro idx ps
  induction ps generalizing idx with
  | nil => intro p e hmem; cases hmem
  | cons q qs ih =>
    intro p e hmem hemb
    simp only [processSamples]
    rcases List.mem_cons.mp hmem with h | h
    · subst h
      rw [hemb]
      simp
    · cases hq : embed q with
      | ok v =>
        simp only [List.mem_cons]
        exact Or.inr (ih (idx + 1) p e h hemb)
      | error e2 =>
        simp only [List.mem_cons]
        exact Or.inr (Or.inr (ih (idx + 1) p e h hemb))

theorem extractFeatures_ok (embed : String → Except String (List ℚ))
    (paths : List String) (hne : paths ≠ [])
    (hsurv : ∃ p ∈ paths, (embed p).toOption ≠ none) :
    (extractFeatures embed paths).1
      = Except.ok (paths.filterMap fun p => (embed p).toOption) := by
  obtain ⟨p, hp, hv⟩ := hsurv
  have hlen : paths.length ≠ 0 := by
    simpa [List.length_eq_zero] using hne
  obtain ⟨v, hv'⟩ : ∃ v, (embed p).toOption = some v := by
    cases h : (embed p).toOption with
    | none => exact absurd h hv
    | some v => exact ⟨v, rfl⟩
  have hmem : v ∈ paths.filterMap fun q => (embed q).toOption :=
    List.mem_filterMap.mpr ⟨p, hp, hv'⟩
  have hfmne : (paths.filterMap fun q => (embed q).toOption) ≠ [] :=
    List.ne_nil_of_mem hmem
  simp only [extractFeatures, hlen, if_false, processSamples_fst]
  simp [hfmne]

theorem extractFeatures_allFail (embed : String → Except String (List ℚ))
    (paths : List String) (hne : paths ≠ [])
    (hfail : ∀ p ∈ paths, (embed p).toOption = none) :
    (extractFeatures embed paths).1
      = Except.error ExtractError.noFeaturesExtracted := by
  have hlen : paths.length ≠ 0 := by
    simpa [List.length_eq_zero] using hne
  have hfm : (paths.filterMap fun q => (embed q).toOption) = [] := by
    rw [List.filterMap_eq_nil_iff]
    exact hfail
  simp [extractFeatures, hlen, processSamples_fst, hfm]

theorem length_filterMap_countP {α β : Type} (f : α → Option β) (l : List α) :
    (l.filterMap f).length = l.countP (fun a => (f a).isSome) := by
  induction l with
  | nil => rfl
  | cons a as ih =>
    simp only [List.filterMap_cons, List.countP_cons]
    cases h : f a with
    | none => simpa [h] using ih
    | some v => simpa [h] using ih

theorem extractFeatures_warns (embed : String → Except String (List ℚ))
    (paths : List String) (p e : String) (hp : p ∈ paths)
    (hemb : embed p = Except.error e) :
    LogEntry.warn p e ∈ (extractFeatures embed paths).2 := by
  have hlen : paths.length ≠ 0 := by
    intro h0
    rw [List.length_eq_zero] at h0
    subst h0
    cases hp
  have hw := processSamples_warn embed paths.length 1 paths p e hp hemb
  simp only [extractFeatures, hlen, if_false]
  by_cases hres : (processSamples embed paths.length 1 paths).1 = []
  · simp only [hres, if_true, List.mem_cons]
    exact Or.inr hw
  · simp only [hres, if_false, List.mem_cons]
    right
    exact List.mem_append_left _ hw

/-- Claim C3: any per-sample embedding failure is logged as a warning carrying
the sample's path and the cause, and the sample is excluded from the output
without aborting the run (on any surviving sample the result is the ok-stack of
exactly the surviving vectors); if every sample fails, `extract_features`
raises the `NoFeaturesExtracted` error rather than returning an empty matrix. -/
theorem extract_failure_policy (embed : String → Except String (List ℚ))
    (paths : List String) (hne : paths ≠ []) :
    (∀ p e, p ∈ paths → embed p = Except.error e →
        LogEntry.warn p e ∈ (extractFeatures embed paths).2) ∧
    ((∃ p ∈ paths, (embed p).toOption ≠ none) →
        (extractFeatures embed paths).1
          = Except.ok (paths.filterMap fun p => (embed p).toOption)) ∧
    ((∀ p ∈ paths, (embed p).toOption = none) →
        (extractFeatures embed paths).1
          = Except.error ExtractError.noFeaturesExtracted) := by
  refine ⟨?_, ?_, ?_⟩
  · intro p e hp hemb
    exact extractFeatures_warns embed paths p e hp hemb
  · intro hsurv
    exact extractFeatures_ok embed paths hne hsurv
  · intro hfail
    exact extractFeatures_allFail embed paths hne hfail

/-- An embedding map used as a concrete witness: fails on the path "bad",
succeeds with a 2-dimensional vector elsewhere. -/
def embedSome : String → Except String (List ℚ) :=
  fun p => if p = "bad" then Except.error "decode error" else Except.ok [0, 1]

/-- An embedding map used as a concrete witness: fails on every path. -/
def embedNone : String → Except String (List ℚ) :=
  fun _ => Except.error "decode error"

/-- Witness for C3 at a concrete two-sample run with one failing sample. -/
theorem extract_failure_policy_witness :
    (["good", "bad"] : List String) ≠ [] ∧
    ((∀ p e, p ∈ ["good", "bad"] → embedSome p = Except.error e →
        LogEntry.warn p e ∈ (extractFeatures embedSome ["good", "bad"]).2) ∧
    ((∃ p ∈ ["good", "bad"], (embedSome p).toOption ≠ none) →
        (extractFeatures embedSome ["good", "bad"]).1
          = Except.ok (["good", "bad"].filterMap fun p => (embedSome p).toOption)) ∧
    ((∀ p ∈ ["good", "bad"], (embedSome p).toOption = none) →
        (extractFeatures embedSome ["good", "bad"]).1
          = Except.error ExtractError.noFeaturesExtracted)) :=
  ⟨by decide, extract_failure_policy embedSome ["good", "bad"] (by decide)⟩

/-- Claim C4: the zero-samples failure and the all-samples-failed failure are
distinct errors: an empty path list surfaces `noSamplesFound`, a non-empty list
whose samples all fail surfaces `noFeaturesExtracted`, the two errors differ,
and so do the message strings the source attaches to the two `RuntimeError`s. -/
theorem extract_errors_distinct (embed : String → Except String (List ℚ))
    (paths : List String) (hne : paths ≠ [])
    (hfail : ∀ p ∈ paths, (embed p).toOption = none) :
    (extractFeatures embed []).1 = Except.error ExtractError.noSamplesFound ∧
    (extractFeatures embed paths).1
      = Except.error ExtractError.noFeaturesExtracted ∧
    ExtractError.noSamplesFound ≠ ExtractError.noFeaturesExtracted ∧
    ExtractError.message ExtractError.noSamplesFound
      ≠ ExtractError.message ExtractError.noFeaturesExtracted := by
  refine ⟨rfl, extractFeatures_allFail embed paths hne hfail, by decide, by decide⟩

/-- Witness for C4 at a concrete run where both samples fail. -/
theorem extract_errors_distinct_witness :
    (["a", "b"] : List String) ≠ [] ∧
    ((extractFeatures embedNone []).1
        = Except.error ExtractError.noSamplesFound ∧
    (extractFeatures embedNone ["a", "b"]).1
        = Except.error ExtractError.noFeaturesExtracted ∧
    ExtractError.noSamplesFound ≠ ExtractError.noFeaturesExtracted ∧
    ExtractError.message ExtractError.noSamplesFound
        ≠ ExtractError.message ExtractError.noFeaturesExtracted) :=
  ⟨by decide, extract_errors_distinct embedNone ["a", "b"] (by decide)
    (by intro p _; rfl)⟩

/-- Claim C10: with at least one surviving sample, extraction returns the ok
matrix whose rows are exactly the surviving samples' vectors in input order
(the input order restricted to the survivors), one row per surviving sample,
and every row has the run's common dimensionality D. -/
theorem extract_matrix_shape (embed : String → Except String (List ℚ))
    (paths : List String) (D : Nat) (hne : paths ≠ [])
    (hdim : ∀ p v, embed p = Except.ok v → v.length = D)
    (hsurv : ∃ p ∈ paths, (embed p).toOption ≠ none) :
    ∃ M, (extractFeatures embed paths).1 = Except.ok M ∧
      M = (paths.filterMap fun p => (embed p).toOption) ∧
      M.length = paths.countP (fun p => ((embed p).toOption).isSome) ∧
      ∀ row ∈ M, row.length = D := by
  refine ⟨paths.filterMap fun p => (embed p).toOption,
    extractFeatures_ok embed paths hne hsurv, rfl, ?_, ?_⟩
  · exact length_filterMap_countP (fun p => (embed p).toOption) paths
  · intro row hrow
    obtain ⟨p, _, hp⟩ := List.mem_filterMap.mp hrow
    cases h : embed p with
    | ok v =>
      have : row = v := by
        rw [h] at hp
        simpa [Except.toOption] using hp.symm
      subst this
      exact hdim p row h
    | error e =>
      rw [h] at hp
      simp [Except.toOption] at hp

/-- Witness for C10 at a concrete run: two surviving samples, one failure,
dimensionality 2. -/
theorem extract_matrix_shape_witness :
    (["x", "bad", "y"] : List String) ≠ [] ∧
    (∀ p v, embedSome p = Except.ok v → v.length = 2) ∧
    (∃ M, (extractFeatures embedSome ["x", "bad", "y"]).1 = Except.ok M ∧
      M = (["x", "bad", "y"].filterMap fun p => (embedSome p).toOption) ∧
      M.length
        = ["x", "bad", "y"].countP (fun p => ((embedSome p).toOption).isSome) ∧
      ∀ row ∈ M, row.length = 2) :=
  ⟨by decide,
   by
     intro p v h
     by_cases hp : p = "bad"
     · simp [embedSome, hp] at h
     · simp only [embedSome, hp, if_false] at h
       cases h
       rfl,
   extract_matrix_shape embedSome ["x", "bad", "y"] 2 (by decide)
     (by
       intro p v h
       by_cases hp : p = "bad"
       · simp [embedSome, hp] at h
       · simp only [embedSome, hp, if_false] at h
         cases h
         rfl)
     ⟨"x", by decide, by decide⟩⟩

/-! ### GMM estimator

`train_gmm` (source lines 106–116) constructs
`GaussianMixture(n_components, covariance_type='diag', verbose=2,
random_state=42)` and calls `.fit(features)`.  The EM algorithm itself lives in
scikit-learn, which is library code not present under `src/`; the definitions
below are modelled from the spec's design-level algorithm (spec §4.2):
seeded initialization (weights `1/K`, means seeded from data points, variances
the per-dimension dataset variance floored at a small positive epsilon),
E-step responsibilities normalized per sample, M-step re-estimation with the
variance floor, for a bounded number of iterations.  The diagonal Gaussian
density is abstracted as a strictly positive parameter `dens` (real
exponentials are not computable over ℚ; every property proved below holds for
any strictly positive density, in particular the Gaussian one).  The spec's
convergence early-stop only shortens the iteration count, and the properties
proved here hold after every iteration count. -/

/-- The small positive floor for variances (spec: "a small positive epsilon
(e.g., 1e-6)"), also the spec's weight-sum tolerance. -/
def epsVar : ℚ := 1 / 1000000

/-- A fitted mixture: `weights_`, `means_`, `covariances_` of the estimator
(diagonal covariances, one variance vector per component). -/
structure GmmParams where
  weights : List ℚ
  means : List (List ℚ)
  covariances : List (List ℚ)
deriving DecidableEq, Repr

/-- Modelled from the spec: the estimator's failure when N < K
("`InsufficientSamples` — N < K; fatal").  In the source this surfaces as the
`ValueError` scikit-learn raises from `.fit` when `n_samples < n_components`. -/
inductive TrainError where
  | insufficientSamples
deriving DecidableEq, Repr

/-- Unnormalized per-component responsibilities of one sample: weight times the
component's density at the sample (spec E-step, before normalization). -/
def unnormRow (dens : List ℚ → List ℚ → List ℚ → ℚ) (g : GmmParams)
    (x : List ℚ) : List ℚ :=
  (List.range g.weights.length).map fun k =>
    g.weights.getD k 0 * dens (g.means.getD k []) (g.covariances.getD k []) x

/-- E-step responsibilities of one sample, normalized across components
(spec: "normalized across components for that sample"). -/
def respRow (dens : List ℚ → List ℚ → List ℚ → ℚ) (g : GmmParams)
    (x : List ℚ) : List ℚ :=
  let u := unnormRow dens g x
  u.map (· / u.sum)

/-- Total responsibility mass of component `k` across all samples. -/
def nkOf (resp : List (List ℚ)) (k : Nat) : ℚ :=
  (resp.map fun r => r.getD k 0).sum

/-- M-step (spec: weight = average responsibility; mean =
responsibility-weighted average of samples; variance =
responsibility-weighted average squared deviation from the new mean,
floored at a small positive epsilon). -/
def mStep (features resp : List (List ℚ)) (K D : Nat) : GmmParams :=
  let n : ℚ := (features.length : ℚ)
  let meanRow := fun (k : Nat) =>
    (List.range D).map fun d =>
      (List.zipWith (fun x r => r.getD k 0 * x.getD d 0) features resp).sum
        / nkOf resp k
  { weights := (List.range K).map fun k => nkOf resp k / n
    means := (List.range K).map meanRow
    covariances := (List.range K).map fun k =>
      let μ := meanRow k
      (List.range D).map fun d =>
        max ((List.zipWith
              (fun x r => r.getD k 0 * (x.getD d 0 - μ.getD d 0) ^ 2)
              features resp).sum / nkOf resp k)
          epsVar }

/-- One EM iteration: E-step over every sample, then the M-step. -/
def emStep (dens : List ℚ → List ℚ → List ℚ → ℚ)
    (features : List (List ℚ)) (K D : Nat) (g : GmmParams) : GmmParams :=
  mStep features (features.map (respRow dens g)) K D

/-- Iterated EM (the iteration budget; the convergence check only makes the
count smaller). -/
def emIterate (dens : List ℚ → List ℚ → List ℚ → ℚ)
    (features : List (List ℚ)) (K D : Nat) : Nat → GmmParams → GmmParams
  | 0, g => g
  | n + 1, g => emIterate dens features K D n (emStep dens features K D g)

/-- Seeded initialization (spec step 1): weights `1/K`, means chosen from the
data by the seed, variances the per-dimension variance of the dataset floored
at `epsVar`. -/
def initParams (features : List (List ℚ)) (K D seed : Nat) : GmmParams :=
  let n : ℚ := (features.length : ℚ)
  let colMean := fun (d : Nat) => (features.map fun x => x.getD d 0).sum / n
  { weights := List.replicate K ((1 : ℚ) / (K : ℚ))
    means := (List.range K).map fun k =>
      features.getD ((seed + k) % features.length) (List.replicate D 0)
    covariances := List.replicate K ((List.range D).map fun d =>
      max ((features.map fun x => (x.getD d 0 - colMean d) ^ 2).sum / n)
        epsVar) }

/-- Modelled from the spec: the GMM estimator.  `train_gmm` fixes the seed
(`random_state=42`) and delegates the fit to
`sklearn.mixture.GaussianMixture.fit`, whose EM loop is not part of the
repository; the model follows spec §4.2: fail with `InsufficientSamples` when
N < K, otherwise run seeded initialization and the bounded EM iteration. -/
def trainGMM (dens : List ℚ → List ℚ → List ℚ → ℚ)
    (features : List (List ℚ)) (nComponents seed maxIter : Nat) :
    Except TrainError GmmParams :=
  if features.length < nComponents then
    Except.error TrainError.insufficientSamples
  else
    let D := (features.headD []).length
    Except.ok (emIterate dens features nComponents D maxIter
      (initParams features nComponents D seed))

/-- The structural invariant of a fitted mixture: K components, weights
strictly positive summing to 1, means and variance vectors of dimension D,
variances at least the floor. -/
def GmmInv (K D : Nat) (g : GmmParams) : Prop :=
  g.weights.length = K ∧ (∀ w ∈ g.weights, 0 < w) ∧ g.weights.sum = 1 ∧
  g.means.length = K ∧ (∀ m ∈ g.means, m.length = D) ∧
  g.covariances.length = K ∧ (∀ v ∈ g.covariances, v.length = D) ∧
  (∀ v ∈ g.covariances, ∀ e ∈ v, epsVar ≤ e)

theorem getD_mem_of_lt {α : Type} (l : List α) (k : Nat) (d : α)
    (h : k < l.length) : l.getD k d ∈ l := by
  rw [List.getD_eq_getElem?_getD, List.getElem?_eq_getElem h]
  exact List.getElem_mem h

theorem listSum_map_div (l : List ℚ) (s : ℚ) :
    (l.map (· / s)).sum = l.sum / s := by
  induction l with
  | nil => simp
  | cons a t ih => simp [ih, add_div]

theorem listSum_map_add {α : Type} (l : List α) (f g : α → ℚ) :
    (l.map fun x => f x + g x).sum = (l.map f).sum + (l.map g).sum := by
  induction l with
  | nil => simp
  | cons a t ih =>
    simp only [List.map_cons, List.sum_cons, ih]
    ring

theorem listSum_map_one {α : Type} (l : List α) :
    (l.map fun _ => (1 : ℚ)).sum = (l.length : ℚ) := by
  induction l with
  | nil => simp
  | cons a t ih =>
    simp only [List.map_cons, List.sum_cons, ih, List.length_cons]
    push_cast
    ring

theorem sum_range_getD (l : List ℚ) :
    ((List.range l.length).map fun k => l.getD k 0).sum = l.sum := by
  induction l with
  | nil => rfl
  | cons a t ih =>
    rw [List.length_cons, List.range_succ_eq_map, List.map_cons, List.map_map,
      List.sum_cons, List.getD_cons_zero]
    have h2 : (List.range t.length).map ((fun k => (a :: t).getD k 0) ∘ Nat.succ)
        = (List.range t.length).map fun k => t.getD k 0 :=
      List.map_congr_left fun k _ => rfl
    rw [h2, ih, List.sum_cons]

theorem sum_comm_list {α : Type} (rows : List α) (K : Nat) (f : α → Nat → ℚ) :
    ((List.range K).map fun k => (rows.map fun r => f r k).sum).sum
      = (rows.map fun r => ((List.range K).map fun k => f r k).sum).sum := by
  induction rows with
  | nil => simp
  | cons r rs ih =>
    have h1 : ((List.range K).map fun k => ((r :: rs).map fun q => f q k).sum).sum
        = ((List.range K).map fun k =>
            f r k + (rs.map fun q => f q k).sum).sum := by
      simp
    rw [h1, listSum_map_add, ih, List.map_cons, List.sum_cons]

theorem respRow_length (dens : List ℚ → List ℚ → List ℚ → ℚ) (g : GmmParams)
    (x : List ℚ) : (respRow dens g x).length = g.weights.length := by
  simp [respRow, unnormRow]

theorem unnormRow_pos (dens : List ℚ → List ℚ → List ℚ → ℚ)
    (hd : ∀ μ v x, 0 < dens μ v x) (g : GmmParams) (x : List ℚ)
    (hw : ∀ w ∈ g.weights, 0 < w) :
    ∀ u ∈ unnormRow dens g x, 0 < u := by
  intro u hu
  simp only [unnormRow, List.mem_map, List.mem_range] at hu
  obtain ⟨k, hk, rfl⟩ := hu
  exact mul_pos (hw _ (getD_mem_of_lt _ k 0 hk)) (hd _ _ _)

theorem unnormRow_sum_pos (dens : List ℚ → List ℚ → List ℚ → ℚ)
    (hd : ∀ μ v x, 0 < dens μ v x) (g : GmmParams) (x : List ℚ)
    (hw : ∀ w ∈ g.weights, 0 < w) (hK : g.weights.length ≠ 0) :
    0 < (unnormRow dens g x).sum := by
  apply List.sum_pos _ (unnormRow_pos dens hd g x hw)
  intro hnil
  apply hK
  have := congrArg List.length hnil
  simpa [unnormRow] using this

theorem respRow_pos (dens : List ℚ → List ℚ → List ℚ → ℚ)
    (hd : ∀ μ v x, 0 < dens μ v x) (g : GmmParams) (x : List ℚ)
    (hw : ∀ w ∈ g.weights, 0 < w) (hK : g.weights.length ≠ 0) :
    ∀ r ∈ respRow dens g x, 0 < r := by
  intro r hr
  simp only [respRow, List.mem_map] at hr
  obtain ⟨u, hu, rfl⟩ := hr
  exact div_pos (unnormRow_pos dens hd g x hw u hu)
    (unnormRow_sum_pos dens hd g x hw hK)

theorem respRow_sum (dens : List ℚ → List ℚ → List ℚ → ℚ)
    (hd : ∀ μ v x, 0 < dens μ v x) (g : GmmParams) (x : List ℚ)
    (hw : ∀ w ∈ g.weights, 0 < w) (hK : g.weights.length ≠ 0) :
    (respRow dens g x).sum = 1 := by
  simp only [respRow]
  rw [listSum_map_div]
  exact div_self (ne_of_gt (unnormRow_sum_pos dens hd g x hw hK))

theorem nkOf_pos (resp : List (List ℚ)) (k K : Nat) (hk : k < K)
    (hne : resp ≠ []) (hrow : ∀ r ∈ resp, r.length = K)
    (hpos : ∀ r ∈ resp, ∀ e ∈ r, 0 < e) : 0 < nkOf resp k := by
  apply List.sum_pos
  · intro a ha
    obtain ⟨r, hr, rfl⟩ := List.mem_map.mp ha
    exact hpos r hr _ (getD_mem_of_lt r k 0 (by rw [hrow r hr]; exact hk))
  · intro h
    apply hne
    have := congrArg List.length h
    simpa using this

theorem mStep_inv (features resp : List (List ℚ)) (K D : Nat)
    (hK : K ≠ 0) (hN : features ≠ [])
    (hlen : resp.length = features.length)
    (hrow : ∀ r ∈ resp, r.length = K)
    (hpos : ∀ r ∈ resp, ∀ e ∈ r, 0 < e)
    (hsum : ∀ r ∈ resp, r.sum = 1) :
    GmmInv K D (mStep features resp K D) := by
  have hrne : resp ≠ [] := by
    intro h
    apply hN
    rw [h] at hlen
    exact List.length_eq_zero.mp hlen.symm
  have hnpos : (0 : ℚ) < (features.length : ℚ) := by
    have : features.length ≠ 0 := by simpa [List.length_eq_zero] using hN
    exact_mod_cast Nat.pos_of_ne_zero this
  refine ⟨by simp [mStep], ?_, ?_, by simp [mStep], ?_, by simp [mStep], ?_, ?_⟩
  · -- weights strictly positive
    intro w hw
    simp only [mStep, List.mem_map, List.mem_range] at hw
    obtain ⟨k, hk, rfl⟩ := hw
    exact div_pos (nkOf_pos resp k K hk hrne hrow hpos) hnpos
  · -- weights sum to 1
    show ((List.range K).map fun k => nkOf resp k / (features.length : ℚ)).sum = 1
    have hmm : ((List.range K).map fun k => nkOf resp k / (features.length : ℚ))
        = ((List.range K).map fun k => nkOf resp k).map
            (· / (features.length : ℚ)) := by
      rw [List.map_map]
      rfl
    rw [hmm, listSum_map_div]
    have hcomm : ((List.range K).map fun k => nkOf resp k).sum
        = (resp.map fun r => ((List.range K).map fun k => r.getD k 0).sum).sum := by
      exact sum_comm_list resp K (fun r k => r.getD k 0)
    have hrows : (resp.map fun r => ((List.range K).map fun k => r.getD k 0).sum)
        = resp.map fun _ => (1 : ℚ) := by
      apply List.map_congr_left
      intro r hr
      rw [← hrow r hr, sum_range_getD, hsum r hr]
    rw [hcomm, hrows, listSum_map_one, hlen]
    exact div_self (ne_of_gt hnpos)
  · -- mean rows have dimension D
    intro m hm
    simp only [mStep, List.mem_map, List.mem_range] at hm
    obtain ⟨k, _, rfl⟩ := hm
    simp
  · -- covariance rows have dimension D
    intro v hv
    simp only [mStep, List.mem_map, List.mem_range] at hv
    obtain ⟨k, _, rfl⟩ := hv
    simp
  · -- covariance entries are at least the floor
    intro v hv e he
    simp only [mStep, List.mem_map, List.mem_range] at hv
    obtain ⟨k, _, rfl⟩ := hv
    simp only [List.mem_map, List.mem_range] at he
    obtain ⟨d, _, rfl⟩ := he
    exact le_max_right _ _

theorem initParams_inv (features : List (List ℚ)) (K D seed : Nat)
    (hK : K ≠ 0) (hN : features ≠ [])
    (hD : ∀ row ∈ features, row.length = D) :
    GmmInv K D (initParams features K D seed) := by
  have hKpos : (0 : ℚ) < (K : ℚ) := by exact_mod_cast Nat.pos_of_ne_zero hK
  refine ⟨by simp [initParams], ?_, ?_, by simp [initParams], ?_,
    by simp [initParams], ?_, ?_⟩
  · intro w hw
    rw [initParams] at hw
    rw [List.eq_of_mem_replicate hw]
    positivity
  · show (List.replicate K ((1 : ℚ) / (K : ℚ))).sum = 1
    rw [List.sum_replicate, nsmul_eq_mul]
    rw [mul_one_div]
    exact div_self (ne_of_gt hKpos)
  · intro m hm
    simp only [initParams, List.mem_map, List.mem_range] at hm
    obtain ⟨k, _, rfl⟩ := hm
    by_cases h : (seed + k) % features.length < features.length
    · exact hD _ (getD_mem_of_lt _ _ _ h)
    · rw [List.getD_eq_default _ _ (by omega)]
      simp
  · intro v hv
    rw [initParams] at hv
    rw [List.eq_of_mem_replicate hv]
    simp
  · intro v hv e he
    rw [initParams] at hv
    rw [List.eq_of_mem_replicate hv] at he
    simp only [List.mem_map, List.mem_range] at he
    obtain ⟨d, _, rfl⟩ := he
    exact le_max_right _ _

theorem emStep_inv (dens : List ℚ → List ℚ → List ℚ → ℚ)
    (hd : ∀ μ v x, 0 < dens μ v x) (features : List (List ℚ)) (K D : Nat)
    (hK : K ≠ 0) (hN : features ≠ []) (g : GmmParams) (hg : GmmInv K D g) :
    GmmInv K D (emStep dens features K D g) := by
  obtain ⟨hwl, hwp, _, _, _, _, _, _⟩ := hg
  have hKw : g.weights.length ≠ 0 := by rw [hwl]; exact hK
  apply mStep_inv features _ K D hK hN (by simp)
  · intro r hr
    obtain ⟨x, _, rfl⟩ := List.mem_map.mp hr
    rw [respRow_length, hwl]
  · intro r hr
    obtain ⟨x, _, rfl⟩ := List.mem_map.mp hr
    exact respRow_pos dens hd g x hwp hKw
  · intro r hr
    obtain ⟨x, _, rfl⟩ := List.mem_map.mp hr
    exact respRow_sum dens hd g x hwp hKw

theorem emIterate_inv (dens : List ℚ → List ℚ → List ℚ → ℚ)
    (hd : ∀ μ v x, 0 < dens μ v x) (features : List (List ℚ)) (K D : Nat)
    (hK : K ≠ 0) (hN : features ≠ []) :
    ∀ (n : Nat) (g : GmmParams), GmmInv K D g →
      GmmInv K D (emIterate dens features K D n g) := by
  intro n
  induction n with
  | zero => intro g hg; exact hg
  | succ m ih =>
    intro g hg
    exact ih _ (emStep_inv dens hd features K D hK hN g hg)

/-- A concrete strictly positive density used by witnesses (every property of
the estimator proved here holds for an arbitrary strictly positive density). -/
def densOne : List ℚ → List ℚ → List ℚ → ℚ := fun _ _ _ => 1

/-- Claim C6: for every valid input (N ≥ K ≥ 1, rows of common dimension D) and
every strictly positive component density, the fitted mixture has non-negative
weights summing to 1 (hence within the 1e-6 absolute tolerance) and every
entry of every per-component variance vector strictly positive. -/
theorem trainGMM_invariants (dens : List ℚ → List ℚ → List ℚ → ℚ)
    (hdens : ∀ μ v x, 0 < dens μ v x) (features : List (List ℚ))
    (K seed maxIter D : Nat) (hK : 1 ≤ K) (hKN : K ≤ features.length)
    (hD : ∀ row ∈ features, row.length = D) :
    ∃ g, trainGMM dens features K seed maxIter = Except.ok g ∧
      (∀ w ∈ g.weights, 0 ≤ w) ∧ g.weights.sum = 1 ∧
      |g.weights.sum - 1| ≤ epsVar ∧
      (∀ v ∈ g.covariances, ∀ e ∈ v, 0 < e) := by
  have hN : features ≠ [] := by
    intro h
    rw [h] at hKN
    simp at hKN
    omega
  have hKne : K ≠ 0 := by omega
  have hnotlt : ¬ features.length < K := not_lt.mpr hKN
  have hD' : ∀ row ∈ features, row.length = (features.headD []).length := by
    cases features with
    | nil => intro row h; cases h
    | cons a t =>
      intro row h
      rw [hD row h, List.headD_cons, hD a (List.mem_cons_self a t)]
  have hinv := emIterate_inv dens hdens features K (features.headD []).length
    hKne hN maxIter (initParams features K (features.headD []).length seed)
    (initParams_inv features K (features.headD []).length seed hKne hN hD')
  obtain ⟨_, hwp, hws, _, _, _, _, hcov⟩ := hinv
  refine ⟨emIterate dens features K (features.headD []).length maxIter
    (initParams features K (features.headD []).length seed), ?_, ?_, ?_, ?_, ?_⟩
  · simp [trainGMM, hnotlt]
  · intro w hw
    exact le_of_lt (hwp w hw)
  · exact hws
  · rw [hws]
    norm_num [epsVar]
  · intro v hv e he
    calc (0 : ℚ) < epsVar := by norm_num [epsVar]
    _ ≤ e := hcov v hv e he

/-- Witness for C6: a valid 2-sample 1-dimensional input with K = 2. -/
theorem trainGMM_invariants_witness :
    (∀ μ v x, 0 < densOne μ v x) ∧ 1 ≤ 2 ∧
    2 ≤ ([[0], [1]] : List (List ℚ)).length ∧
    (∀ row ∈ ([[0], [1]] : List (List ℚ)), row.length = 1) ∧
    ∃ g, trainGMM densOne [[0], [1]] 2 42 1 = Except.ok g ∧
      (∀ w ∈ g.weights, 0 ≤ w) ∧ g.weights.sum = 1 ∧
      |g.weights.sum - 1| ≤ epsVar ∧
      (∀ v ∈ g.covariances, ∀ e ∈ v, 0 < e) :=
  ⟨fun _ _ _ => one_pos, by decide, by decide, by decide,
    trainGMM_invariants densOne (fun _ _ _ => one_pos) [[0], [1]] 2 42 1 1
      (by decide) (by decide) (by decide)⟩

/-- Claim C7: the estimator is deterministic — the fit is a pure function of
the feature matrix, the component count, the seed and the iteration budget (the
source pins `random_state=42`, removing the only source of nondeterminism), so
two runs on equal inputs return equal weights, means and covariances. -/
theorem trainGMM_deterministic (dens : List ℚ → List ℚ → List ℚ → ℚ)
    (f1 f2 : List (List ℚ)) (K1 K2 s1 s2 it1 it2 : Nat)
    (hf : f1 = f2) (hK : K1 = K2) (hs : s1 = s2) (hit : it1 = it2) :
    trainGMM dens f1 K1 s1 it1 = trainGMM dens f2 K2 s2 it2 := by
  subst hf
  subst hK
  subst hs
  subst hit
  rfl

/-- Witness for C7: two runs on the same concrete inputs coincide. -/
theorem trainGMM_deterministic_witness :
    ([[0], [1]] : List (List ℚ)) = [[0], [1]] ∧ 2 = 2 ∧ 42 = 42 ∧ 3 = 3 ∧
    trainGMM densOne [[0], [1]] 2 42 3 = trainGMM densOne [[0], [1]] 2 42 3 :=
  ⟨rfl, rfl, rfl, rfl,
    trainGMM_deterministic densOne [[0], [1]] [[0], [1]] 2 2 42 42 3 3
      rfl rfl rfl rfl⟩

/-- Claim C9: whenever the matrix has fewer rows than components (N < K) the
estimator fails with `InsufficientSamples` and produces no fitted mixture. -/
theorem trainGMM_insufficient (dens : List ℚ → List ℚ → List ℚ → ℚ)
    (features : List (List ℚ)) (K seed maxIter : Nat)
    (h : features.length < K) :
    trainGMM dens features K seed maxIter
        = Except.error TrainError.insufficientSamples ∧
    ∀ g, trainGMM dens features K seed maxIter ≠ Except.ok g := by
  constructor
  · simp [trainGMM, h]
  · intro g hg
    rw [trainGMM, if_pos h] at hg
    cases hg

/-- Witness for C9: the spec's scenario N = 3, K = 5. -/
theorem trainGMM_insufficient_witness :
    ([[0], [1], [2]] : List (List ℚ)).length < 5 ∧
    (trainGMM densOne [[0], [1], [2]] 5 42 3
        = Except.error TrainError.insufficientSamples ∧
    ∀ g, trainGMM densOne [[0], [1], [2]] 5 42 3 ≠ Except.ok g) :=
  ⟨by decide, trainGMM_insufficient densOne [[0], [1], [2]] 5 42 3 (by decide)⟩

/-! ### Parameter exporter — JSON document (source lines 119–133)

`export_gmm` builds `params = {"weights": gmm.weights_.tolist(), "means":
gmm.means_.tolist(), "covariances": gmm.covariances_.tolist()}` and
`json.dump`s it.  `tolist()` yields exact Python floats; numbers are modelled
as exact rationals, so the round-trip proved below is exact (stronger than the
single-precision round-trip the spec asks for). -/

/-- JSON values, as far as this exporter needs them. -/
inductive Json where
  | num (q : ℚ)
  | arr (xs : List Json)
  | obj (fields : List (String × Json))
deriving Repr

/-- A JSON array of numbers. -/
def jsonNumArr (l : List ℚ) : Json := Json.arr (l.map Json.num)

/-- A JSON array of arrays of numbers. -/
def jsonMatArr (m : List (List ℚ)) : Json := Json.arr (m.map jsonNumArr)

/-- The document `export_gmm` serializes: exactly the three keys `weights`,
`means`, `covariances`, in the order the source dict lists them. -/
def exportDoc (g : GmmParams) : Json :=
  Json.obj
    [("weights", jsonNumArr g.weights),
     ("means", jsonMatArr g.means),
     ("covariances", jsonMatArr g.covariances)]

/-- The top-level keys of a JSON object. -/
def Json.keysOf : Json → List String
  | .obj fields => fields.map Prod.fst
  | _ => []

/-- Top-level field lookup in a JSON object. -/
def Json.lookupField : Json → String → Option Json
  | .obj fields, key => (fields.find? fun f => f.1 = key).map Prod.snd
  | _, _ => none

/-- Read back an array of numbers. -/
def Json.asNumList : Json → Option (List ℚ)
  | .arr xs => xs.mapM fun j => match j with | .num q => some q | _ => none
  | _ => none

/-- Read back an array of arrays of numbers. -/
def Json.asMat : Json → Option (List (List ℚ))
  | .arr xs => xs.mapM Json.asNumList
  | _ => none

/-- Parse a mixture back out of an exported document. -/
def decodeGmm (j : Json) : Option GmmParams :=
  match (j.lookupField "weights").bind Json.asNumList,
      (j.lookupField "means").bind Json.asMat,
      (j.lookupField "covariances").bind Json.asMat with
  | some w, some m, some c => some ⟨w, m, c⟩
  | _, _, _ => none

/-- `j` is a JSON array of `n` numbers. -/
def isNumArr (j : Json) (n : Nat) : Prop :=
  ∃ l : List ℚ, j = jsonNumArr l ∧ l.length = n

/-- `j` is a JSON array of `k` arrays of `d` numbers each. -/
def isMatArr (j : Json) (k d : Nat) : Prop :=
  ∃ m : List (List ℚ), j = jsonMatArr m ∧ m.length = k ∧
    ∀ r ∈ m, r.length = d

theorem asNumList_jsonNumArr (l : List ℚ) :
    Json.asNumList (jsonNumArr l) = some l := by
  induction l with
  | nil => rfl
  | cons a t ih =>
    simp only [jsonNumArr, Json.asNumList, List.map_cons, List.mapM_cons]
    simp only [jsonNumArr, Json.asNumList] at ih
    rw [ih]
    rfl

theorem asMat_jsonMatArr (m : List (List ℚ)) :
    Json.asMat (jsonMatArr m) = some m := by
  induction m with
  | nil => rfl
  | cons r t ih =>
    simp only [jsonMatArr, Json.asMat, List.map_cons, List.mapM_cons]
    rw [asNumList_jsonNumArr]
    simp only [jsonMatArr, Json.asMat] at ih
    rw [ih]
    rfl

/-- Claim C2: for a fitted mixture with K components over D-dimensional
features, the exported document is a single JSON object whose top-level keys
are exactly `weights`, `means`, `covariances` (in that order, no others);
`weights` is an array of K numbers, `means` and `covariances` arrays of K
arrays of D numbers; parsing the document back returns the mixture's numeric
values exactly (so the round-trip is at least single-precision faithful). -/
theorem export_schema (g : GmmParams) (K D : Nat)
    (hw : g.weights.length = K)
    (hm : g.means.length = K) (hmr : ∀ r ∈ g.means, r.length = D)
    (hc : g.covariances.length = K) (hcr : ∀ r ∈ g.covariances, r.length = D) :
    (exportDoc g).keysOf = ["weights", "means", "covariances"] ∧
    (∃ jw, (exportDoc g).lookupField "weights" = some jw ∧ isNumArr jw K) ∧
    (∃ jm, (exportDoc g).lookupField "means" = some jm ∧ isMatArr jm K D) ∧
    (∃ jc, (exportDoc g).lookupField "covariances" = some jc ∧
      isMatArr jc K D) ∧
    decodeGmm (exportDoc g) = some g := by
  refine ⟨rfl, ?_, ?_, ?_, ?_⟩
  · exact ⟨jsonNumArr g.weights, by rfl, g.weights, rfl, hw⟩
  · refine ⟨jsonMatArr g.means, ?_, g.means, rfl, hm, hmr⟩
    simp [exportDoc, Json.lookupField, List.find?]
  · refine ⟨jsonMatArr g.covariances, ?_, g.covariances, rfl, hc, hcr⟩
    simp [exportDoc, Json.lookupField, List.find?]
  · have h1 : (exportDoc g).lookupField "weights" = some (jsonNumArr g.weights) := rfl
    have h2 : (exportDoc g).lookupField "means" = some (jsonMatArr g.means) := by
      simp [exportDoc, Json.lookupField, List.find?]
    have h3 : (exportDoc g).lookupField "covariances"
        = some (jsonMatArr g.covariances) := by
      simp [exportDoc, Json.lookupField, List.find?]
    rw [decodeGmm, h1, h2, h3]
    simp [Option.bind, asNumList_jsonNumArr, asMat_jsonMatArr]

/-- A concrete fitted mixture (K = 2 components, D = 1) used by witnesses. -/
def gSample : GmmParams :=
  { weights := [1/2, 1/2], means := [[0], [1]], covariances := [[1], [1]] }

/-- Witness for C2 at the concrete mixture `gSample` (K = 2, D = 1). -/
theorem export_schema_witness :
    gSample.weights.length = 2 ∧ gSample.means.length = 2 ∧
    (∀ r ∈ gSample.means, r.length = 1) ∧ gSample.covariances.length = 2 ∧
    (∀ r ∈ gSample.covariances, r.length = 1) ∧
    ((exportDoc gSample).keysOf = ["weights", "means", "covariances"] ∧
    (∃ jw, (exportDoc gSample).lookupField "weights" = some jw ∧
      isNumArr jw 2) ∧
    (∃ jm, (exportDoc gSample).lookupField "means" = some jm ∧
      isMatArr jm 2 1) ∧
    (∃ jc, (exportDoc gSample).lookupField "covariances" = some jc ∧
      isMatArr jc 2 1) ∧
    decodeGmm (exportDoc gSample) = some gSample) :=
  ⟨by decide, by decide, by decide, by decide, by decide,
    export_schema gSample 2 1 (by decide) (by decide) (by decide) (by decide)
      (by decide)⟩

/-! ### Parameter exporter — file-system behaviour (source lines 119–133)

`export_gmm` creates the parent directory if needed, then opens the *target
path itself* with mode `"w"` (which truncates any existing file at once) and
`json.dump`s the record into that handle.  There is no temporary file and no
rename.  The model below replays those steps against an explicit file-system
state so the atomicity claim can be settled. -/

/-- A file system: an association of paths to file contents. -/
def Fs : Type := List (String × String)

/-- Read a file. -/
def fsGet (fs : Fs) (p : String) : Option String :=
  (List.find? (fun e => e.1 = p) fs).map Prod.snd

/-- Create or replace a file. -/
def fsSet (fs : Fs) (p c : String) : Fs :=
  (p, c) :: List.filter (fun e => ¬ e.1 = p) fs

/-- The primitive file operations `export_gmm` performs.  `rename` is included
only so that the claim's "write to a temporary location and rename on success"
can be expressed; the source never emits it. -/
inductive FsStep where
  | makedirs (dir : String)
  | truncate (path : String)
  | write (path : String) (chunk : String)
  | rename (src dst : String)
deriving DecidableEq, Repr

/-- Effect of one step on the file system.  `truncate` is the immediate effect
of `open(path, "w")`; `write` appends to the (already truncated) file. -/
def applyStep (fs : Fs) : FsStep → Fs
  | .makedirs _ => fs
  | .truncate p => fsSet fs p ""
  | .write p c => fsSet fs p ((fsGet fs p).getD "" ++ c)
  | .rename src dst =>
    match fsGet fs src with
    | some c => fsSet (List.filter (fun e => ¬ e.1 = src) fs) dst c
    | none => fs

/-- Run a list of steps; a crash after `k` steps leaves the state
`runSteps fs (steps.take k)`. -/
def runSteps (fs : Fs) (steps : List FsStep) : Fs :=
  steps.foldl applyStep fs

/-- The directory part of a path (`os.path.dirname`). -/
def dirnameOf (p : String) : String :=
  String.intercalate "/" (p.splitOn "/").dropLast

/-- Render a list of rationals as a JSON array (whitespace of the source's
`indent=4` formatting is abstracted; the claims below depend only on the
rendered record as a whole). -/
def renderNumList (l : List ℚ) : String :=
  "[" ++ String.intercalate ", " (l.map fun q =>
    toString q.num ++ "/" ++ toString q.den) ++ "]"

/-- Render a matrix as a JSON array of arrays. -/
def renderMat (m : List (List ℚ)) : String :=
  "[" ++ String.intercalate ", " (m.map renderNumList) ++ "]"

/-- The complete serialized record `json.dump` produces for `params`. -/
def renderGmmJson (g : GmmParams) : String :=
  "\x7b\"weights\": " ++ renderNumList g.weights
    ++ ", \"means\": " ++ renderMat g.means
    ++ ", \"covariances\": " ++ renderMat g.covariances ++ "\x7d"

/-- The file-system steps of `export_gmm` (source lines 126–131): create the
parent directory, open the target path for writing (truncating it), dump the
record.  No temporary file, no rename. -/
def exportGmmSteps (g : GmmParams) (outputPath : String) : List FsStep :=
  [FsStep.makedirs (dirnameOf outputPath),
   FsStep.truncate outputPath,
   FsStep.write outputPath (renderGmmJson g)]

/-- Whether a step is a rename. -/
def FsStep.isRename : FsStep → Bool
  | .rename _ _ => true
  | _ => false

theorem fsGet_fsSet (fs : Fs) (p c : String) : fsGet (fsSet fs p c) p = some c := by
  simp [fsGet, fsSet, List.find?]

/-- Claim C1 counterexample: the export is not atomic.  Concretely, start from
a file system where `out.json` holds `"old"`, export the mixture `gSample`,
and crash after two steps (the `open(output_path, "w")` has truncated the
file, the dump has not happened): the canonical output `out.json` now holds
the empty string — neither the complete record nor the previous contents, i.e.
a partial file is left as the canonical output. -/
theorem export_not_atomic :
    ¬ (fsGet (runSteps [("out.json", "old")]
          ((exportGmmSteps gSample "out.json").take 2)) "out.json"
        = some (renderGmmJson gSample) ∨
      fsGet (runSteps [("out.json", "old")]
          ((exportGmmSteps gSample "out.json").take 2)) "out.json"
        = some "old") := by
  decide

/-- Claim C1 amended: the export writes the record directly at the target path
(truncate, then dump) with no temporary location and no rename; when all steps
complete, the target path holds exactly the complete serialized record
(overwriting any prior contents) — but an interruption between the truncation
and the completed dump can leave a partial (empty) file at the target path, as
`export_not_atomic` shows. -/
theorem export_direct_write (g : GmmParams) (outputPath : String) (fs : Fs) :
    fsGet (runSteps fs (exportGmmSteps g outputPath)) outputPath
      = some (renderGmmJson g) ∧
    (exportGmmSteps g outputPath).all (fun s => ¬ s.isRename) = true := by
  constructor
  · show fsGet (fsSet (fsSet fs outputPath "") outputPath
        ((fsGet (fsSet fs outputPath "") outputPath).getD ""
          ++ renderGmmJson g)) outputPath
      = some (renderGmmJson g)
    rw [fsGet_fsSet, fsGet_fsSet]
    simp
  · rfl

/-! ### `main` (source lines 136–172)

`main` checks the dataset directory, extracts features, trains and exports,
and on *every* failure prints a stage-naming `[ERROR] ...` diagnostic and
calls `sys.exit(1)`.  The export outcome depends on the environment (I/O) and
is passed in as a parameter. -/

/-- The diagnostic `main` leaves behind: one constructor per failing stage
(carrying the cause appended to the stage message), or the success message. -/
inductive Diagnostic where
  | datasetPathError
  | extractionFailed (cause : String)
  | trainingFailed (cause : String)
  | exportFailed (cause : String)
  | allDone
deriving DecidableEq, Repr

/-- The human-readable text printed for each diagnostic, from the source's
`print(..., file=sys.stderr)` calls: each failure message names its stage. -/
def Diagnostic.render : Diagnostic → String
  | .datasetPathError => "[ERROR] Dataset path does not exist or is not a directory"
  | .extractionFailed cause => "[ERROR] Feature extraction failed: " ++ cause
  | .trainingFailed cause => "[ERROR] GMM training failed: " ++ cause
  | .exportFailed cause => "[ERROR] Export failed: " ++ cause
  | .allDone => "[INFO] All done."

/-- The message scikit-learn's `ValueError` carries in the modelled
`InsufficientSamples` case. -/
def TrainError.message : TrainError → String
  | .insufficientSamples => "Expected n_samples >= n_components"

/-- Process termination state: the exit status and the final diagnostic. -/
structure MainResult where
  exitCode : Nat
  diagnostic : Diagnostic
deriving DecidableEq, Repr

/-- `main` (source lines 136–172): validate the dataset directory
(`sys.exit(1)`), extract features (`except ... sys.exit(1)`), train
(`except ... sys.exit(1)`), export (`except ... sys.exit(1)`), else succeed
with exit status 0.  Every `sys.exit` in the source passes the same status 1. -/
def mainRun (datasetIsDir : Bool) (embed : String → Except String (List ℚ))
    (imagePaths : List String) (nComponents seed maxIter : Nat)
    (dens : List ℚ → List ℚ → List ℚ → ℚ)
    (exportOutcome : Except String Unit) : MainResult :=
  if !datasetIsDir then ⟨1, Diagnostic.datasetPathError⟩
  else
    match (extractFeatures embed imagePaths).1 with
    | .error e => ⟨1, Diagnostic.extractionFailed e.message⟩
    | .ok features =>
      match trainGMM dens features nComponents seed maxIter with
      | .error e => ⟨1, Diagnostic.trainingFailed e.message⟩
      | .ok _ =>
        match exportOutcome with
        | .error m => ⟨1, Diagnostic.exportFailed m⟩
        | .ok _ => ⟨0, Diagnostic.allDone⟩

/-- Claim C5 counterexample: two runs failing at *different* stages — one where
the loader yields zero samples (extraction stage fails with `NoSamplesFound`),
one where N = 1 < K = 5 (training stage fails with `InsufficientSamples`) —
terminate with the *same* exit status 1 (every `sys.exit` in `main` passes 1),
so distinct stage failures do not carry distinct non-zero exit statuses; only
the diagnostics differ. -/
theorem main_exit_not_distinct :
    (mainRun true embedSome [] 5 42 3 densOne (Except.ok ())).diagnostic
      = Diagnostic.extractionFailed
          (ExtractError.message ExtractError.noSamplesFound) ∧
    (mainRun true embedSome ["good"] 5 42 3 densOne (Except.ok ())).diagnostic
      = Diagnostic.trainingFailed
          (TrainError.message TrainError.insufficientSamples) ∧
    (mainRun true embedSome [] 5 42 3 densOne (Except.ok ())).exitCode = 1 ∧
    (mainRun true embedSome ["good"] 5 42 3 densOne (Except.ok ())).exitCode = 1 ∧
    ¬ (mainRun true embedSome [] 5 42 3 densOne (Except.ok ())).exitCode
        ≠ (mainRun true embedSome ["good"] 5 42 3 densOne (Except.ok ())).exitCode := by
  decide

/-- Claim C5 amended: every stage failure (invalid dataset directory, loader
finds zero samples, extraction yields zero features, insufficient samples for
K, export I/O failure) terminates with the same non-zero exit status 1
together with a human-readable diagnostic naming the failing stage (the four
failure diagnostics render with pairwise distinct stage-naming messages);
success exits with status 0.  The stages are distinguished by the diagnostic,
not by the exit status. -/
theorem main_exit_behavior (datasetIsDir : Bool)
    (embed : String → Except String (List ℚ)) (imagePaths : List String)
    (nComponents seed maxIter : Nat) (dens : List ℚ → List ℚ → List ℚ → ℚ)
    (exportOutcome : Except String Unit) :
    (((mainRun datasetIsDir embed imagePaths nComponents seed maxIter dens
          exportOutcome).diagnostic = Diagnostic.allDone ∧
      (mainRun datasetIsDir embed imagePaths nComponents seed maxIter dens
          exportOutcome).exitCode = 0) ∨
     ((mainRun datasetIsDir embed imagePaths nComponents seed maxIter dens
          exportOutcome).diagnostic ≠ Diagnostic.allDone ∧
      (mainRun datasetIsDir embed imagePaths nComponents seed maxIter dens
          exportOutcome).exitCode = 1)) ∧
    (∀ c1 c2 : String,
      Diagnostic.render (Diagnostic.extractionFailed c1)
          = "[ERROR] Feature extraction failed: " ++ c1 ∧
      Diagnostic.render (Diagnostic.trainingFailed c1)
          = "[ERROR] GMM training failed: " ++ c1 ∧
      Diagnostic.render (Diagnostic.exportFailed c1)
          = "[ERROR] Export failed: " ++ c1 ∧
      Diagnostic.datasetPathError ≠ Diagnostic.extractionFailed c1 ∧
      Diagnostic.extractionFailed c1 ≠ Diagnostic.trainingFailed c2 ∧
      Diagnostic.trainingFailed c1 ≠ Diagnostic.exportFailed c2 ∧
      Diagnostic.datasetPathError ≠ Diagnostic.trainingFailed c1 ∧
      Diagnostic.datasetPathError ≠ Diagnostic.exportFailed c1 ∧
      Diagnostic.extractionFailed c1 ≠ Diagnostic.exportFailed c2) := by
  constructor
  · by_cases hdir : datasetIsDir
    · cases hext : (extractFeatures embed imagePaths).1 with
      | error e =>
        right
        constructor <;> simp [mainRun.eq_def, hdir, hext]
      | ok features =>
        cases htr : trainGMM dens features nComponents seed maxIter with
        | error e =>
          right
          constructor <;> simp [mainRun.eq_def, hdir, hext, htr]
        | ok g =>
          cases hexp : exportOutcome with
          | error m =>
            right
            constructor <;> simp [mainRun.eq_def, hdir, hext, htr, hexp]
          | ok u =>
            left
            constructor <;> simp [mainRun.eq_def, hdir, hext, htr, hexp]
    · right
      constructor <;> simp [mainRun.eq_def, hdir]
  · intro c1 c2
    refine ⟨rfl, rfl, rfl, ?_, ?_, ?_, ?_, ?_, ?_⟩ <;> simp

end TrainGmm
